import Mathlib

/-!
Verification of the openft repository: a shallow embedding of the
dataset-builder, token/cost estimators, bounds checker, JSONL serializer and
the fine-tune job orchestrator (src/data.py, src/utils.py, src/openft.py),
together with theorems settling the specification claims.

Conventions of the embedding:
* file contents are passed as `String` values (the repository reads them from
  disk; local I/O is outside the model);
* `tiktoken.Encoding` is abstracted by the per-string token-length function
  `tokLen : String → Nat` (only `len(encoding.encode v)` is ever used);
* Python floats are modelled as rationals `ℚ` (the claims are about the
  arithmetic structure of the cost formulas, not rounding);
* Python `assert` failures and attribute errors are modelled by explicit
  error values (`Except` / `LaunchResult.raises`);
* remote OpenAI calls are scripted by a `RemoteEnv` value, and the calls the
  orchestrator performs are recorded in an `Event` trace.
-/

/-- A chat message dict as produced by `create_single_ft_message`:
a Python dict with exactly the keys `role` and `content`, in that
insertion order. -/
structure Message where
  role : String
  content : String
deriving DecidableEq

/-- A fine-tuning record `\x7b'messages': [...]\x7d` (spec: ConversationRecord). -/
structure ConversationRecord where
  messages : List Message
deriving DecidableEq

/-- The values of a message dict in Python iteration order
(`message.items()` yields `('role', role), ('content', content)`). -/
def messageValues (m : Message) : List String :=
  [m.role, m.content]

/-- Embedding of `utils._tokens_for_messages`: per message add
`tokens_per_msg` plus the token length of every dict value (role and
content), and add 3 once at the end of the record. -/
def _tokens_for_messages (messages : List Message) (tokLen : String → Nat)
    (tokens_per_msg : Nat) : Nat :=
  (messages.foldl
    (fun num_tokens message =>
      (messageValues message).foldl
        (fun acc value => acc + tokLen value)
        (num_tokens + tokens_per_msg))
    0) + 3

/-- Embedding of `utils.calc_total_tokens`: sum of `_tokens_for_messages`
over the dataset. -/
def calc_total_tokens (dataset : List ConversationRecord)
    (tokLen : String → Nat) (tokens_per_msg : Nat) : Nat :=
  dataset.foldl
    (fun num_tokens ex =>
      num_tokens + _tokens_for_messages ex.messages tokLen tokens_per_msg)
    0

/-- Embedding of `utils.calc_cost_of_training`:
`(calc_total_tokens(dataset, encoding) / 1000) * num_epochs * cost_per_1k`
(the call site uses the default `tokens_per_msg = 3`). -/
def calc_cost_of_training (dataset : List ConversationRecord)
    (tokLen : String → Nat) (num_epochs : Nat) (cost_per_1k : ℚ) : ℚ :=
  ((calc_total_tokens dataset tokLen 3 : ℚ) / 1000) * num_epochs * cost_per_1k

/-- Embedding of `utils.check_all_examples_are_bounded`: fold the loop state
`(all_good, max_tokens)` over the dataset, starting from `(True, 0)`; an
over-bound record clears `all_good` (and is reported) but iteration goes on. -/
def check_all_examples_are_bounded (dataset : List ConversationRecord)
    (tokLen : String → Nat) (bound : Nat) : Bool × Nat :=
  dataset.foldl
    (fun acc ex =>
      let num_tokens := _tokens_for_messages ex.messages tokLen 3
      let all_good := if num_tokens > bound then false else acc.1
      let max_tokens := if num_tokens > acc.2 then num_tokens else acc.2
      (all_good, max_tokens))
    (true, 0)

/-- Per-message token contribution, in closed form: overhead plus the token
lengths of both dict values. -/
def messageTokens (tokLen : String → Nat) (tokens_per_msg : Nat)
    (m : Message) : Nat :=
  tokens_per_msg + tokLen m.role + tokLen m.content

/-- Per-record token count in closed form. -/
def recordTokens (tokLen : String → Nat) (tokens_per_msg : Nat)
    (r : ConversationRecord) : Nat :=
  (r.messages.map (messageTokens tokLen tokens_per_msg)).sum + 3

theorem tokens_for_messages_eq (messages : List Message)
    (tokLen : String → Nat) (tpm : Nat) :
    _tokens_for_messages messages tokLen tpm =
      (messages.map (messageTokens tokLen tpm)).sum + 3 := by
  unfold _tokens_for_messages
  congr 1
  suffices h : ∀ init : Nat,
      messages.foldl
        (fun num_tokens message =>
          (messageValues message).foldl (fun acc value => acc + tokLen value)
            (num_tokens + tpm)) init =
        init + (messages.map (messageTokens tokLen tpm)).sum by
    simpa using h 0
  induction messages with
  | nil => intro init; simp
  | cons m ms ih =>
      intro init
      simp only [List.foldl_cons, List.map_cons, List.sum_cons, ih]
      simp [messageValues, messageTokens]
      ring

theorem calc_total_tokens_eq (dataset : List ConversationRecord)
    (tokLen : String → Nat) (tpm : Nat) :
    calc_total_tokens dataset tokLen tpm =
      (dataset.map (recordTokens tokLen tpm)).sum := by
  unfold calc_total_tokens
  suffices h : ∀ init : Nat,
      dataset.foldl
        (fun num_tokens ex =>
          num_tokens + _tokens_for_messages ex.messages tokLen tpm) init =
        init + (dataset.map (recordTokens tokLen tpm)).sum by
    simpa using h 0
  induction dataset with
  | nil => intro init; simp
  | cons r rs ih =>
      intro init
      rw [List.foldl_cons, ih]
      simp only [List.map_cons, List.sum_cons, tokens_for_messages_eq, recordTokens]
      omega

/-- C1 counterexample: with the character-counting tokenizer, a record whose
single message has role "system" and content "hi" is counted as
3 + len("system") + len("hi") + 3 = 14 tokens, not the claimed
3 + len("hi") + 3 = 8 — the role value is tokenized too. -/
theorem tokens_count_content_only_false :
    ¬ (calc_total_tokens [⟨[⟨"system", "hi"⟩]⟩] String.length 3 =
        (3 + String.length "hi") + 3) := by
  decide

/-- C1 (amended): the per-record token count is the sum, over the record's
messages, of the per-message overhead plus the tokenized lengths of ALL the
message's field values — both role and content — plus a fixed reply-priming
overhead of 3 per record; the dataset total is the sum over records. -/
theorem per_record_token_accounting (dataset : List ConversationRecord)
    (tokLen : String → Nat) (tokens_per_msg : Nat) :
    calc_total_tokens dataset tokLen tokens_per_msg =
      (dataset.map (fun r =>
        (r.messages.map (fun m =>
          tokens_per_msg + tokLen m.role + tokLen m.content)).sum + 3)).sum := by
  exact calc_total_tokens_eq dataset tokLen tokens_per_msg

/-- The maximum per-record token count observed over the whole dataset,
exactly as the `max_tokens` loop variable accumulates it (0 for an empty
dataset). -/
def maxObservedTokens (dataset : List ConversationRecord)
    (tokLen : String → Nat) : Nat :=
  dataset.foldl
    (fun m ex => max m (_tokens_for_messages ex.messages tokLen 3)) 0

theorem check_bounded_foldl (tokLen : String → Nat) (bound : Nat) :
    ∀ (dataset : List ConversationRecord) (b : Bool) (m : Nat),
      dataset.foldl
        (fun acc ex =>
          let num_tokens := _tokens_for_messages ex.messages tokLen 3
          let all_good := if num_tokens > bound then false else acc.1
          let max_tokens := if num_tokens > acc.2 then num_tokens else acc.2
          (all_good, max_tokens))
        (b, m) =
      (b && dataset.all
          (fun ex => _tokens_for_messages ex.messages tokLen 3 ≤ bound),
        dataset.foldl
          (fun m ex => max m (_tokens_for_messages ex.messages tokLen 3)) m) := by
  intro dataset
  induction dataset with
  | nil => intro b m; simp
  | cons r rs ih =>
      intro b m
      rw [List.foldl_cons, List.foldl_cons, ih]
      by_cases h : _tokens_for_messages r.messages tokLen 3 > bound
      · have hb : ¬ (_tokens_for_messages r.messages tokLen 3 ≤ bound) := by omega
        simp only [h, if_true, List.all_cons]
        simp [hb, Nat.max_def]
        congr 1
        split <;> split <;> omega
      · have hb : _tokens_for_messages r.messages tokLen 3 ≤ bound := by omega
        simp only [h, if_false, List.all_cons]
        simp [hb, Nat.max_def]
        congr 1
        split <;> split <;> omega

theorem foldl_max_le (tokLen : String → Nat) (bound : Nat) :
    ∀ (dataset : List ConversationRecord) (m : Nat), m ≤ bound →
      (∀ ex ∈ dataset, _tokens_for_messages ex.messages tokLen 3 ≤ bound) →
      dataset.foldl
        (fun m ex => max m (_tokens_for_messages ex.messages tokLen 3)) m ≤
        bound := by
  intro dataset
  induction dataset with
  | nil => intro m hm _; simpa using hm
  | cons r rs ih =>
      intro m hm h
      rw [List.foldl_cons]
      exact ih _ (by
        have := h r (by simp)
        exact Nat.max_le.mpr ⟨hm, this⟩)
        (fun ex hex => h ex (by simp [hex]))

/-- C7: the bounds checker is a total function (the embedding returns a pair
for every input — nothing can raise); the maximum component is accumulated
over the whole dataset, so an over-bound record never stops the iteration;
the boolean is the conjunction of the per-record bound checks; and when every
record is within the bound the checker returns `(true, max_observed)` with
`max_observed ≤ bound`. -/
theorem check_bounded_spec (dataset : List ConversationRecord)
    (tokLen : String → Nat) (bound : Nat) :
    (check_all_examples_are_bounded dataset tokLen bound).2 =
        maxObservedTokens dataset tokLen ∧
    (check_all_examples_are_bounded dataset tokLen bound).1 =
        dataset.all
          (fun ex => _tokens_for_messages ex.messages tokLen 3 ≤ bound) ∧
    ((∀ ex ∈ dataset, _tokens_for_messages ex.messages tokLen 3 ≤ bound) →
      check_all_examples_are_bounded dataset tokLen bound =
          (true, maxObservedTokens dataset tokLen) ∧
        maxObservedTokens dataset tokLen ≤ bound) := by
  have hfold := check_bounded_foldl tokLen bound dataset true 0
  unfold check_all_examples_are_bounded maxObservedTokens
  rw [hfold]
  refine ⟨rfl, by simp, ?_⟩
  intro h
  constructor
  · have : dataset.all
        (fun ex => _tokens_for_messages ex.messages tokLen 3 ≤ bound) = true := by
      simpa [List.all_eq_true] using h
    simp [this]
  · exact foldl_max_le tokLen bound dataset 0 (Nat.zero_le _) h

/-- A small concrete dataset used to instantiate hypotheses of the claim
theorems. -/
def sampleDataset : List ConversationRecord :=
  [⟨[⟨"system", "Be helpful."⟩, ⟨"user", "Q1"⟩, ⟨"assistant", "A1"⟩]⟩]

theorem check_bounded_spec_witness :
    check_all_examples_are_bounded sampleDataset String.length 100 =
        (true, maxObservedTokens sampleDataset String.length) ∧
      maxObservedTokens sampleDataset String.length ≤ 100 :=
  (check_bounded_spec sampleDataset String.length 100).2.2 (by decide)

/-- Leftmost occurrence of the (non-empty) separator `sep` in a character
list: `some (pre, post)` splits around the first occurrence, `none` means no
occurrence. -/
def splitFirst (sep : List Char) : List Char → Option (List Char × List Char)
  | [] => none
  | c :: cs =>
    if sep.isPrefixOf (c :: cs) then some ([], (c :: cs).drop sep.length)
    else
      match splitFirst sep cs with
      | some (pre, post) => some (c :: pre, post)
      | none => none

/-- Repeatedly split on the separator (Python `str.split(sep)` semantics for
a non-empty `sep`). The fuel argument only bounds the recursion; callers pass
`length + 1`, which each removed separator keeps sufficient. -/
def splitOnAux (sep : List Char) : Nat → List Char → List (List Char)
  | 0, l => [l]
  | Nat.succ fuel, l =>
    match splitFirst sep l with
    | none => [l]
    | some (pre, post) => pre :: splitOnAux sep fuel post

/-- Python `data.split(sep)` for a non-empty separator. -/
def pySplit (data : String) (sep : String) : List String :=
  (splitOnAux sep.data (data.data.length + 1) data.data).map
    (fun l => String.mk l)

/-- Embedding of `data.load_from_file` (the file's contents stand in for the
path): split the data on the separator; a `None` (or empty, since Python
tests truthiness) separator returns the whole data as a one-element list. -/
def load_from_file (data : String) (split : Option String) : List String :=
  match split with
  | some s => if s = "" then [data] else pySplit data s
  | none => [data]

/-- Embedding of `data.create_single_ft_message`. -/
def create_single_ft_message (system_prompt question answer : String) :
    ConversationRecord :=
  ⟨[⟨"system", system_prompt⟩, ⟨"user", question⟩, ⟨"assistant", answer⟩]⟩

/-- The two `assert` statements of `OpenFT.create_training_dataset`, as
error values (spec taxonomy: ConfigurationError for the system-prompt count,
ValidationError for the question/answer mismatch). -/
inductive BuildError where
  | sysPromptCount (n : Nat)
  | qaMismatch (nq na : Nat)
deriving DecidableEq

/-- The configuration fields of `OpenFT` that the modelled pipeline reads
(resolved by `_setup_with_config`). The tokenizer obtained from
`tiktoken.get_encoding(self.encoding)` is abstracted by `tokLen`. -/
structure FTConfig where
  data_split : Option String
  max_token_size : Nat
  num_epochs : Nat
  poll_wait : Nat
  token_cost : ℚ
  with_val_data : Bool
  tokLen : String → Nat

/-- Contents of the five local text files the builder may read. -/
structure TrainingFiles where
  system_prompt : String
  questions : String
  answers : String
  val_questions : String
  val_answers : String

/-- Embedding of `OpenFT.create_training_dataset`: load the system prompt
unsplit, load and split questions and answers, assert exactly one system
prompt and matching counts, then zip questions with answers. -/
def create_training_dataset (cfg : FTConfig) (files : TrainingFiles)
    (validation : Bool) : Except BuildError (List ConversationRecord) :=
  let q_data := if validation then files.val_questions else files.questions
  let a_data := if validation then files.val_answers else files.answers
  let sys_prompts := load_from_file files.system_prompt none
  let questions := load_from_file q_data cfg.data_split
  let answers := load_from_file a_data cfg.data_split
  if sys_prompts.length = 1 then
    let sys_prompt := sys_prompts.headD ""
    if questions.length = answers.length then
      .ok (List.zipWith
        (fun q a => create_single_ft_message sys_prompt q a) questions answers)
    else .error (.qaMismatch questions.length answers.length)
  else .error (.sysPromptCount sys_prompts.length)

/-- C10: reading a source with `split = None` yields exactly the one-element
list for every content, so the system-prompt-count assertion can never fail:
no input makes the builder return the `sysPromptCount` error. -/
theorem load_none_singleton_sys_assert_unreachable :
    (∀ data : String, load_from_file data none = [data]) ∧
    ∀ (cfg : FTConfig) (files : TrainingFiles) (validation : Bool) (n : Nat),
      create_training_dataset cfg files validation ≠
        .error (.sysPromptCount n) := by
  refine ⟨fun data => rfl, ?_⟩
  intro cfg files validation n h
  have hs : load_from_file files.system_prompt none = [files.system_prompt] :=
    rfl
  unfold create_training_dataset at h
  rw [hs] at h
  simp only [List.length_singleton, if_true] at h
  split at h <;> split at h <;> simp_all

/-- C6: with equally many questions and answers the builder succeeds with
exactly one record per pair, the i-th record pairing the i-th question with
the i-th answer, and every record carries the same system prompt string. -/
theorem builder_pairs_questions_answers (cfg : FTConfig)
    (files : TrainingFiles)
    (h : (load_from_file files.questions cfg.data_split).length =
        (load_from_file files.answers cfg.data_split).length) :
    ∃ ds, create_training_dataset cfg files false = .ok ds ∧
      ds.length = (load_from_file files.questions cfg.data_split).length ∧
      (∀ (i : Nat) (hq : i < (load_from_file files.questions cfg.data_split).length)
          (ha : i < (load_from_file files.answers cfg.data_split).length)
          (hd : i < ds.length),
        ds.get ⟨i, hd⟩ = create_single_ft_message files.system_prompt
          ((load_from_file files.questions cfg.data_split).get ⟨i, hq⟩)
          ((load_from_file files.answers cfg.data_split).get ⟨i, ha⟩)) ∧
      ∀ r ∈ ds, r.messages.head? = some ⟨"system", files.system_prompt⟩ := by
  refine ⟨List.zipWith
      (fun q a => create_single_ft_message files.system_prompt q a)
      (load_from_file files.questions cfg.data_split)
      (load_from_file files.answers cfg.data_split), ?_, ?_, ?_, ?_⟩
  · have hs : load_from_file files.system_prompt none = [files.system_prompt] :=
      rfl
    unfold create_training_dataset
    rw [hs]
    simp [h]
  · simp [h]
  · intro i hq ha hd
    simp [List.get_eq_getElem, List.getElem_zipWith]
  · intro r hr
    obtain ⟨i, hi, rfl⟩ := List.mem_iff_getElem.mp hr
    simp [List.getElem_zipWith, create_single_ft_message]

/-- The spec's worked example: two questions and two answers split on a
double newline. -/
def sampleFiles : TrainingFiles :=
  ⟨"Be helpful.", "Q1\n\nQ2", "A1\n\nA2", "", ""⟩

/-- A default-flavoured configuration with the character-count tokenizer. -/
def cfgDefault : FTConfig :=
  ⟨some "\n\n", 4096, 1, 30, 8 / 1000, false, String.length⟩

theorem builder_pairs_questions_answers_witness :
    ∃ ds, create_training_dataset cfgDefault sampleFiles false = .ok ds ∧
      ds.length =
        (load_from_file sampleFiles.questions cfgDefault.data_split).length ∧
      (∀ (i : Nat)
          (hq : i < (load_from_file sampleFiles.questions cfgDefault.data_split).length)
          (ha : i < (load_from_file sampleFiles.answers cfgDefault.data_split).length)
          (hd : i < ds.length),
        ds.get ⟨i, hd⟩ = create_single_ft_message sampleFiles.system_prompt
          ((load_from_file sampleFiles.questions cfgDefault.data_split).get ⟨i, hq⟩)
          ((load_from_file sampleFiles.answers cfgDefault.data_split).get ⟨i, ha⟩)) ∧
      ∀ r ∈ ds, r.messages.head? = some ⟨"system", sampleFiles.system_prompt⟩ :=
  builder_pairs_questions_answers cfgDefault sampleFiles (by decide)

/-- Files whose question and answer sources are both empty: the builder
succeeds on them, producing one record whose three contents are all the
empty string. -/
def emptyFiles : TrainingFiles := ⟨"", "", "", "", ""⟩

/-- C2 counterexample: on empty sources the builder succeeds and yields a
record in which the system, user and assistant contents are all empty — the
claimed non-empty-content invariant does not hold for every successful
input. -/
theorem builder_nonempty_content_false :
    create_training_dataset cfgDefault emptyFiles false =
        .ok [create_single_ft_message "" "" ""] ∧
      (create_single_ft_message "" "" "").messages.map Message.content =
        ["", "", ""] := by
  exact ⟨rfl, rfl⟩

/-- C2 (amended): every record the builder produces consists of exactly one
system message, one user message and one assistant message, in that order;
their contents are the loaded strings and may be empty. -/
theorem builder_record_roles (cfg : FTConfig) (files : TrainingFiles)
    (validation : Bool) (ds : List ConversationRecord)
    (h : create_training_dataset cfg files validation = .ok ds) :
    ∀ r ∈ ds, r.messages.map Message.role = ["system", "user", "assistant"] := by
  intro r hr
  unfold create_training_dataset at h
  dsimp only [] at h
  repeat' split at h
  all_goals try exact Except.noConfusion h
  all_goals
    rw [Except.ok.injEq] at h
    subst h
    obtain ⟨i, hi, rfl⟩ := List.mem_iff_getElem.mp hr
    simp [List.getElem_zipWith, create_single_ft_message]

theorem builder_record_roles_witness :
    (create_single_ft_message "" "" "").messages.map Message.role =
      ["system", "user", "assistant"] :=
  builder_record_roles cfgDefault emptyFiles false
    [create_single_ft_message "" "" ""] rfl
    (create_single_ft_message "" "" "") (by simp)

/-- The `error` attribute of a fine-tuning job. -/
structure JobError where
  code : String
  message : String
deriving DecidableEq

/-- The fields of an `openai` `FineTuningJob` that the orchestrator reads.
Statuses are the raw strings the Python `match` compares against. -/
structure FTJob where
  id : String
  status : String
  error : Option JobError
  trained_tokens : Nat
  fine_tuned_model : String
  result_files : List String
deriving DecidableEq

/-- Observable actions of one `launch_fine_tune` run: the blocking sleep and
every remote OpenAI call. -/
inductive Event where
  | uploadFile (name : String)
  | createJob
  | sleep (secs : Nat)
  | fetchJob
  | retrieveFile (id : String)
deriving DecidableEq

/-- Outcome of the polling loop of `launch_fine_tune` (lines 148-164). -/
inductive PollResult where
  /-- status "succeeded": break out of the loop with the last fetched job. -/
  | success (job : FTJob)
  /-- status "failed" with an error attached, or status "cancelled":
  the loop returns the empty list. -/
  | returnEmpty
  /-- status "failed" with `error = None`: `error_state.code` raises
  `AttributeError` in Python. -/
  | attrError
  /-- the scripted status sequence ran out while the loop was still going:
  the real loop would keep polling forever. -/
  | hang
deriving DecidableEq

/-- Embedding of the `while True` polling loop: each iteration sleeps
`poll_wait` seconds, fetches the job once, and matches on its status;
any status other than succeeded/failed/cancelled just logs and loops. The
scripted list holds the successive jobs `_fetch_ft_job` returns. -/
def pollJob (poll_wait : Nat) : List FTJob → List Event × PollResult
  | [] => ([], .hang)
  | j :: rest =>
    let evs := [Event.sleep poll_wait, Event.fetchJob]
    if j.status = "succeeded" then (evs, .success j)
    else if j.status = "failed" then
      match j.error with
      | some _ => (evs, .returnEmpty)
      | none => (evs, .attrError)
    else if j.status = "cancelled" then (evs, .returnEmpty)
    else
      (evs ++ (pollJob poll_wait rest).1, (pollJob poll_wait rest).2)

/-- Python exceptions `launch_fine_tune` can raise in the modelled flow. -/
inductive RunError where
  /-- an `assert` in `create_training_dataset` fired. -/
  | buildError (e : BuildError)
  /-- `assert flag` on the training dataset bound check fired. -/
  | boundsAssert
  /-- `assert flag` on the validation dataset bound check fired. -/
  | valBoundsAssert
  /-- `assert file_object.status == "processed"` fired for a file upload. -/
  | fileNotProcessed
  /-- `error_state.code` with `error = None` raised `AttributeError`. -/
  | attrError
deriving DecidableEq

/-- How one `launch_fine_tune` run ends. -/
inductive LaunchResult where
  | returns (paths : List String)
  | raises (e : RunError)
  | diverges
deriving DecidableEq

/-- Embedding of `os.path.join(output_dir, filename)` for the paths the
result fetcher builds. -/
def pathJoin (dir file : String) : String :=
  if file.startsWith "/" then file
  else if dir = "" then file
  else if dir.endsWith "/" then dir ++ file
  else dir ++ "/" ++ file

/-- Embedding of `OpenFT.fetch_results_files`: one local path per result
file id, in order; `filename` scripts `client.files.retrieve(id).filename`. -/
def fetch_results_files (filename : String → String)
    (result_files : List String) (output_dir : String) : List String :=
  result_files.map (fun rf => pathJoin output_dir (filename rf))

/-- Embedding of line 170: `cost = billable_tokens * self.token_cost / 1000.` -/
def realized_cost (billable_tokens : Nat) (token_cost : ℚ) : ℚ :=
  billable_tokens * token_cost / 1000

/-- Scripted behaviour of the remote service for one run. -/
structure RemoteEnv where
  /-- status of the training file after `wait_for_processing`. -/
  uploadStatus : String
  /-- status of the validation file after `wait_for_processing`. -/
  valUploadStatus : String
  /-- jobs returned by the successive `_fetch_ft_job` calls. -/
  jobScript : List FTJob
  /-- `client.files.retrieve(id).filename` for each result file id. -/
  filename : String → String

/-- Embedding of lines 148-174 of `openft.py`: poll the job to a terminal
status, then, on success, print the realized cost and fetch the result
files. -/
def poll_and_fetch (poll_wait : Nat) (token_cost : ℚ)
    (filename : String → String) (output_dir : String)
    (script : List FTJob) : LaunchResult × List Event :=
  match pollJob poll_wait script with
  | (evs, .success j) =>
    let _cost := realized_cost j.trained_tokens token_cost
    (.returns (fetch_results_files filename j.result_files output_dir),
      evs ++ j.result_files.map Event.retrieveFile)
  | (evs, .returnEmpty) => (.returns [], evs)
  | (evs, .attrError) => (.raises .attrError, evs)
  | (evs, .hang) => (.diverges, evs)

/-- Python truthiness of the optional validation dataset: `if val_dataset:`
is false both for `None` and for an empty list. -/
def isTruthy (v : Option (List ConversationRecord)) : Bool :=
  match v with
  | some l => !l.isEmpty
  | none => false

/-- Embedding of `OpenFT.launch_fine_tune`: build (and, if configured,
validation-build) the dataset, bound-check, run the optional operator gate,
upload the file(s) and wait for processing, create the job, poll it and
collect results. Returns the run outcome and the trace of sleeps and remote
calls. -/
def launch_fine_tune (cfg : FTConfig) (files : TrainingFiles)
    (user_prompt : Bool) (user_input : String) (dataset_name : String)
    (output_dir : String) (env : RemoteEnv) : LaunchResult × List Event :=
  match create_training_dataset cfg files false with
  | .error e => (.raises (.buildError e), [])
  | .ok dataset =>
    match (if cfg.with_val_data then
            (create_training_dataset cfg files true).map some
          else .ok none) with
    | .error e => (.raises (.buildError e), [])
    | .ok val_dataset =>
      if (check_all_examples_are_bounded dataset cfg.tokLen
            cfg.max_token_size).1 = false then
        (.raises .boundsAssert, [])
      else if isTruthy val_dataset ∧
          (check_all_examples_are_bounded (val_dataset.getD []) cfg.tokLen
            cfg.max_token_size).1 = false then
        (.raises .valBoundsAssert, [])
      else
        let _total := calc_total_tokens dataset cfg.tokLen 3
        let _cost := calc_cost_of_training dataset cfg.tokLen cfg.num_epochs
          cfg.token_cost
        if user_prompt ∧
            user_input.toLower ≠ "y" ∧ user_input.toLower ≠ "yes" then
          (.returns [], [])
        else
          let evs1 := [Event.uploadFile dataset_name]
          if env.uploadStatus ≠ "processed" then
            (.raises .fileNotProcessed, evs1)
          else if isTruthy val_dataset then
            let evs2 := evs1 ++ [Event.uploadFile ("val_" ++ dataset_name)]
            if env.valUploadStatus ≠ "processed" then
              (.raises .fileNotProcessed, evs2)
            else
              let evs3 := evs2 ++ [Event.createJob]
              let pf := poll_and_fetch cfg.poll_wait cfg.token_cost
                env.filename output_dir env.jobScript
              (pf.1, evs3 ++ pf.2)
          else
            let evs3 := evs1 ++ [Event.createJob]
            let pf := poll_and_fetch cfg.poll_wait cfg.token_cost
              env.filename output_dir env.jobScript
            (pf.1, evs3 ++ pf.2)

/-- C3: with the scripted statuses [running, running, succeeded] the loop
performs exactly three fetches, each preceded by one sleep of the configured
interval, and the run returns a non-empty result-path list; with
[running, failed] it returns the empty list after exactly two fetches; and a
job whose status is none of succeeded/failed/cancelled never exits the
loop. -/
theorem polling_scripted_scenarios (pw : Nat) (tc : ℚ) (fn : String → String)
    (od : String) (jr js jf : FTJob) (e : JobError)
    (hr : jr.status = "running") (hs : js.status = "succeeded")
    (hres : js.result_files ≠ []) (hf : jf.status = "failed")
    (he : jf.error = some e) :
    (pollJob pw [jr, jr, js]).1 =
      [.sleep pw, .fetchJob, .sleep pw, .fetchJob, .sleep pw, .fetchJob] ∧
    (∃ paths, (poll_and_fetch pw tc fn od [jr, jr, js]).1 = .returns paths ∧
      paths ≠ []) ∧
    (pollJob pw [jr, jf]).1 = [.sleep pw, .fetchJob, .sleep pw, .fetchJob] ∧
    (poll_and_fetch pw tc fn od [jr, jf]).1 = .returns [] ∧
    ∀ (j : FTJob) (rest : List FTJob), j.status ≠ "succeeded" →
      j.status ≠ "failed" → j.status ≠ "cancelled" →
      pollJob pw (j :: rest) =
        (Event.sleep pw :: Event.fetchJob :: (pollJob pw rest).1,
          (pollJob pw rest).2) := by
  have hsf : ("running" : String) ≠ "succeeded" := by decide
  have hff : ("running" : String) ≠ "failed" := by decide
  have hcf : ("running" : String) ≠ "cancelled" := by decide
  have hfs : ("failed" : String) ≠ "succeeded" := by decide
  have h1 : pollJob pw [jr, jr, js] =
      ([.sleep pw, .fetchJob, .sleep pw, .fetchJob, .sleep pw, .fetchJob],
        .success js) := by
    simp [pollJob, hr, hs, hsf, hff, hcf]
  have h2 : pollJob pw [jr, jf] =
      ([.sleep pw, .fetchJob, .sleep pw, .fetchJob], .returnEmpty) := by
    simp [pollJob, hr, hf, he, hsf, hff, hcf, hfs]
  refine ⟨by rw [h1], ?_, by rw [h2], ?_, ?_⟩
  · refine ⟨fetch_results_files fn js.result_files od, ?_, ?_⟩
    · simp [poll_and_fetch, h1]
    · simp [fetch_results_files, hres]
  · simp [poll_and_fetch, h2]
  · intro j rest h1 h2 h3
    simp [pollJob, h1, h2, h3]

/-- A scripted running job. -/
def runningJob : FTJob := ⟨"ftjob-1", "running", none, 0, "", []⟩

/-- A scripted succeeded job carrying one result file. -/
def succeededJob : FTJob :=
  ⟨"ftjob-1", "succeeded", none, 5000, "ft:gpt-3.5-turbo:example",
    ["file-result-1"]⟩

/-- A scripted failed job carrying an error. -/
def failedJob : FTJob :=
  ⟨"ftjob-1", "failed", some ⟨"invalid_training_file", "boom"⟩, 0, "", []⟩

theorem polling_scripted_scenarios_witness :
    (pollJob 30 [runningJob, runningJob, succeededJob]).1 =
      [.sleep 30, .fetchJob, .sleep 30, .fetchJob, .sleep 30, .fetchJob] ∧
    (∃ paths,
      (poll_and_fetch 30 (8 / 1000) (fun _ => "results.csv") ""
        [runningJob, runningJob, succeededJob]).1 = .returns paths ∧
      paths ≠ []) ∧
    (pollJob 30 [runningJob, failedJob]).1 =
      [.sleep 30, .fetchJob, .sleep 30, .fetchJob] ∧
    (poll_and_fetch 30 (8 / 1000) (fun _ => "results.csv") ""
      [runningJob, failedJob]).1 = .returns [] ∧
    ∀ (j : FTJob) (rest : List FTJob), j.status ≠ "succeeded" →
      j.status ≠ "failed" → j.status ≠ "cancelled" →
      pollJob 30 (j :: rest) =
        (Event.sleep 30 :: Event.fetchJob :: (pollJob 30 rest).1,
          (pollJob 30 rest).2) :=
  polling_scripted_scenarios 30 (8 / 1000) (fun _ => "results.csv") ""
    runningJob succeededJob failedJob ⟨"invalid_training_file", "boom"⟩
    rfl rfl (by decide) rfl rfl

theorem pollJob_append_nonterminal (pw : Nat) :
    ∀ (pre : List FTJob),
      (∀ k ∈ pre, k.status ≠ "succeeded" ∧ k.status ≠ "failed" ∧
        k.status ≠ "cancelled") →
      ∀ l : List FTJob, (pollJob pw (pre ++ l)).2 = (pollJob pw l).2 := by
  intro pre
  induction pre with
  | nil => intro _ l; rfl
  | cons k ks ih =>
      intro hpre l
      obtain ⟨h1, h2, h3⟩ := hpre k (by simp)
      rw [List.cons_append]
      simp only [pollJob, h1, h2, h3]
      simp only [if_false]
      exact ih (fun x hx => hpre x (by simp [hx])) l

/-- C4: whenever the polled job reaches status "failed" with an error
attached (so its code and message can be surfaced) or status "cancelled",
the orchestrator returns the empty result list through the normal return
channel and raises no exception. -/
theorem terminal_failure_returns_empty (pre : List FTJob) (j : FTJob)
    (rest : List FTJob)
    (hpre : ∀ k ∈ pre, k.status ≠ "succeeded" ∧ k.status ≠ "failed" ∧
      k.status ≠ "cancelled")
    (hj : (j.status = "failed" ∧ j.error ≠ none) ∨ j.status = "cancelled") :
    (∀ (pw : Nat) (tc : ℚ) (fn : String → String) (od : String),
      (poll_and_fetch pw tc fn od (pre ++ j :: rest)).1 = .returns [] ∧
      ∀ e, (poll_and_fetch pw tc fn od (pre ++ j :: rest)).1 ≠ .raises e) ∧
    ∀ (cfg : FTConfig) (files : TrainingFiles)
      (user_input dataset_name output_dir : String) (env : RemoteEnv)
      (dataset : List ConversationRecord),
      create_training_dataset cfg files false = .ok dataset →
      cfg.with_val_data = false →
      (check_all_examples_are_bounded dataset cfg.tokLen
        cfg.max_token_size).1 = true →
      env.uploadStatus = "processed" →
      env.jobScript = pre ++ j :: rest →
      (launch_fine_tune cfg files false user_input dataset_name output_dir
        env).1 = .returns [] := by
  have hterm : ∀ pw : Nat, (pollJob pw (pre ++ j :: rest)).2 =
      .returnEmpty := by
    intro pw
    rw [pollJob_append_nonterminal pw pre hpre (j :: rest)]
    rcases hj with ⟨hf, he⟩ | hc
    · have hfs : j.status ≠ "succeeded" := by rw [hf]; decide
      rcases Option.ne_none_iff_exists.mp he with ⟨er, her⟩
      simp [pollJob, hf, hfs, ← her]
    · have hcs : j.status ≠ "succeeded" := by rw [hc]; decide
      have hcff : j.status ≠ "failed" := by rw [hc]; decide
      simp [pollJob, hc, hcs, hcff]
  have hpf : ∀ (pw : Nat) (tc : ℚ) (fn : String → String) (od : String),
      (poll_and_fetch pw tc fn od (pre ++ j :: rest)).1 = .returns [] := by
    intro pw tc fn od
    have ht := hterm pw
    unfold poll_and_fetch
    rcases hscript : pollJob pw (pre ++ j :: rest) with ⟨evs, r⟩
    rw [hscript] at ht
    simp only at ht
    subst ht
    rfl
  refine ⟨fun pw tc fn od =>
    ⟨hpf pw tc fn od, fun e => by
      rw [hpf pw tc fn od]; exact LaunchResult.noConfusion⟩, ?_⟩
  intro cfg files user_input dataset_name output_dir env dataset hbuild hval
    hbound hupload hscript
  unfold launch_fine_tune
  rw [hbuild, hval, hscript]
  simp only [Bool.false_eq_true, if_false, isTruthy, hbound, hupload,
    Bool.true_eq_false, false_and, ne_eq, not_true_eq_false,
    not_false_eq_true, if_true]
  exact hpf cfg.poll_wait cfg.token_cost env.filename output_dir

/-- A scripted cancelled job. -/
def cancelledJob : FTJob := ⟨"ftjob-1", "cancelled", none, 0, "", []⟩

theorem terminal_failure_returns_empty_witness :
    (∀ (pw : Nat) (tc : ℚ) (fn : String → String) (od : String),
      (poll_and_fetch pw tc fn od
          ([runningJob] ++ cancelledJob :: [])).1 = .returns [] ∧
      ∀ e, (poll_and_fetch pw tc fn od
          ([runningJob] ++ cancelledJob :: [])).1 ≠ .raises e) ∧
    ∀ (cfg : FTConfig) (files : TrainingFiles)
      (user_input dataset_name output_dir : String) (env : RemoteEnv)
      (dataset : List ConversationRecord),
      create_training_dataset cfg files false = .ok dataset →
      cfg.with_val_data = false →
      (check_all_examples_are_bounded dataset cfg.tokLen
        cfg.max_token_size).1 = true →
      env.uploadStatus = "processed" →
      env.jobScript = [runningJob] ++ cancelledJob :: [] →
      (launch_fine_tune cfg files false user_input dataset_name output_dir
        env).1 = .returns [] :=
  terminal_failure_returns_empty [runningJob] cancelledJob []
    (by decide) (Or.inr rfl)

/-- C5: if the split question and answer sources differ in length, the whole
run fails with the question/answer-mismatch assertion before any record is
produced, and the event trace is empty: no remote call is made. -/
theorem qa_mismatch_fails_before_remote (cfg : FTConfig)
    (files : TrainingFiles) (user_prompt : Bool) (user_input : String)
    (dataset_name : String) (output_dir : String) (env : RemoteEnv)
    (h : (load_from_file files.questions cfg.data_split).length ≠
        (load_from_file files.answers cfg.data_split).length) :
    launch_fine_tune cfg files user_prompt user_input dataset_name output_dir
        env =
      (.raises (.buildError (.qaMismatch
        (load_from_file files.questions cfg.data_split).length
        (load_from_file files.answers cfg.data_split).length)), []) := by
  have hb : create_training_dataset cfg files false =
      .error (.qaMismatch
        (load_from_file files.questions cfg.data_split).length
        (load_from_file files.answers cfg.data_split).length) := by
    have hsys : load_from_file files.system_prompt none =
        [files.system_prompt] := rfl
    unfold create_training_dataset
    rw [hsys]
    simp [h]
  unfold launch_fine_tune
  rw [hb]

/-- Files with two questions but a single answer. -/
def mismatchFiles : TrainingFiles := ⟨"sys", "Q1\n\nQ2", "A1", "", ""⟩

/-- A remote environment that would process every upload and succeed
immediately, never consulted in the C5 scenario. -/
def happyEnv : RemoteEnv :=
  ⟨"processed", "processed", [succeededJob], fun _ => "results.csv"⟩

theorem qa_mismatch_fails_before_remote_witness :
    launch_fine_tune cfgDefault mismatchFiles false "" "dataset.jsonl" ""
        happyEnv =
      (.raises (.buildError (.qaMismatch
        (load_from_file mismatchFiles.questions cfgDefault.data_split).length
        (load_from_file mismatchFiles.answers cfgDefault.data_split).length)),
        []) :=
  qa_mismatch_fails_before_remote cfgDefault mismatchFiles false ""
    "dataset.jsonl" "" happyEnv (by decide)

/-- C9: the realized training cost of a succeeded job is
trainedTokens / 1000 x pricePerThousand with no epoch multiplier, while the
pre-flight estimate `calc_cost_of_training` is exactly the epoch count times
that formula applied to the estimated total. -/
theorem realized_cost_no_epoch_multiplier (tt : Nat) (tc : ℚ)
    (ds : List ConversationRecord) (tokLen : String → Nat) (ep : Nat)
    (p : ℚ) :
    realized_cost tt tc = (tt : ℚ) / 1000 * tc ∧
    calc_cost_of_training ds tokLen ep p =
      ((calc_total_tokens ds tokLen 3 : ℚ) / 1000) * ep * p ∧
    calc_cost_of_training ds tokLen ep p =
      (ep : ℚ) * realized_cost (calc_total_tokens ds tokLen 3) p := by
  refine ⟨by unfold realized_cost; ring, rfl, ?_⟩
  unfold calc_cost_of_training realized_cost
  ring

/-- Lowercase hexadecimal digit for n < 16 (CPython formats escapes with
`%04x`). -/
def hexDigitChar (n : Nat) : Char :=
  if n < 10 then Char.ofNat (48 + n) else Char.ofNat (87 + n)

/-- The four hex digits of a 16-bit value, most significant first. -/
def hex4 (n : Nat) : List Char :=
  [hexDigitChar (n / 4096 % 16), hexDigitChar (n / 256 % 16),
    hexDigitChar (n / 16 % 16), hexDigitChar (n % 16)]

/-- `json.dumps` escaping of one character under the default
`ensure_ascii=True`: the seven short escapes, printable ASCII kept literal,
and a `\uXXXX` escape for everything else, as a surrogate pair beyond the
basic multilingual plane. -/
def escapeChar (c : Char) : List Char :=
  if c = '"' then ['\\', '"']
  else if c = '\\' then ['\\', '\\']
  else if c = Char.ofNat 8 then ['\\', 'b']
  else if c = Char.ofNat 12 then ['\\', 'f']
  else if c = '\n' then ['\\', 'n']
  else if c = Char.ofNat 13 then ['\\', 'r']
  else if c = '\t' then ['\\', 't']
  else if 0x20 ≤ c.toNat ∧ c.toNat ≤ 0x7e then [c]
  else if c.toNat < 0x10000 then '\\' :: 'u' :: hex4 c.toNat
  else
    ('\\' :: 'u' :: hex4 (0xd800 + (c.toNat - 0x10000) / 0x400)) ++
      ('\\' :: 'u' :: hex4 (0xdc00 + (c.toNat - 0x10000) % 0x400))

/-- Body of a JSON string literal: every character escaped. -/
def encStr (s : String) : List Char :=
  (s.data.map escapeChar).flatten

/-- A JSON string literal: quote, escaped body, quote. -/
def encodeJString (s : String) : List Char :=
  '"' :: encStr s ++ ['"']

/-- `", ".join` of already-serialized items (the default `json.dumps` item
separator). -/
def jsonItems : List (List Char) → List Char
  | [] => []
  | x :: xs => x ++ (xs.map (fun y => ", ".data ++ y)).flatten

/-- `json.dumps` of one message dict:
`\x7b"role": <role>, "content": <content>\x7d`. -/
def json_dumps_message (m : Message) : List Char :=
  ("\x7b\"role\": ".data) ++ encodeJString m.role ++
    (", \"content\": ".data) ++ encodeJString m.content ++ [Char.ofNat 0x7d]

/-- `json.dumps` of the messages list. -/
def json_dumps_msglist (msgs : List Message) : List Char :=
  '[' :: jsonItems (msgs.map json_dumps_message) ++ [']']

/-- `json.dumps` of one record: `\x7b"messages": [...]\x7d`. -/
def json_dumps_record (r : ConversationRecord) : List Char :=
  ("\x7b\"messages\": ".data) ++ json_dumps_msglist r.messages ++
    [Char.ofNat 0x7d]

/-- Embedding of `data.write_dataset_to_jsonl`: the content written to the
file — `json.dumps(example)` then a newline, for each record in order. -/
def write_dataset_to_jsonl (dataset : List ConversationRecord) : String :=
  String.mk ((dataset.map (fun ex => json_dumps_record ex ++ ['\n'])).flatten)

/-- Split on newlines, one line per newline-terminated (or final unterminated)
segment, Python `str.splitlines` style: no spurious empty line after a
trailing newline. -/
def splitLinesChars : List Char → List (List Char)
  | [] => []
  | c :: r =>
    if c = '\n' then [] :: splitLinesChars r
    else
      match splitLinesChars r with
      | [] => [[c]]
      | l :: ls => (c :: l) :: ls

/-- String-level line splitting. -/
def splitLines (s : String) : List String :=
  (splitLinesChars s.data).map String.mk

/-- Numeric value of one hexadecimal digit (JSON accepts both cases). -/
def hexDigitVal (c : Char) : Option Nat :=
  if 48 ≤ c.toNat ∧ c.toNat ≤ 57 then some (c.toNat - 48)
  else if 97 ≤ c.toNat ∧ c.toNat ≤ 102 then some (c.toNat - 87)
  else if 65 ≤ c.toNat ∧ c.toNat ≤ 70 then some (c.toNat - 55)
  else none

/-- Numeric value of four hex digits. -/
def hex4Val (h1 h2 h3 h4 : Char) : Option Nat :=
  match hexDigitVal h1, hexDigitVal h2, hexDigitVal h3, hexDigitVal h4 with
  | some a, some b, some c, some d => some (a * 4096 + b * 256 + c * 16 + d)
  | _, _, _, _ => none

/-- Decode the low-surrogate half `\\uXXXX` that must follow a high
surrogate, combining the two into one code point. `next` continues parsing
the string body. -/
def decodeLowSurrogate
    (next : List Char → Option (List Char × List Char)) (n : Nat) :
    List Char → Option (List Char × List Char)
  | b1 :: b2 :: g1 :: g2 :: g3 :: g4 :: rest4 =>
    if b1 = '\\' ∧ b2 = 'u' then
      match hex4Val g1 g2 g3 g4 with
      | some m2 =>
        if 0xdc00 ≤ m2 ∧ m2 < 0xe000 then
          (next rest4).map
            (fun p =>
              (Char.ofNat (0x10000 + (n - 0xd800) * 0x400 + (m2 - 0xdc00)) ::
                p.1, p.2))
        else none
      | none => none
    else none
  | _ => none

/-- Decode a `\\uXXXX` escape: four hex digits, possibly starting a
surrogate pair; a lone surrogate is rejected. -/
def decodeU (next : List Char → Option (List Char × List Char)) :
    List Char → Option (List Char × List Char)
  | h1 :: h2 :: h3 :: h4 :: rest3 =>
    match hex4Val h1 h2 h3 h4 with
    | none => none
    | some n =>
      if 0xd800 ≤ n ∧ n < 0xdc00 then decodeLowSurrogate next n rest3
      else if 0xdc00 ≤ n ∧ n < 0xe000 then none
      else (next rest3).map (fun p => (Char.ofNat n :: p.1, p.2))
  | _ => none

/-- Decode one backslash escape of a JSON string body. -/
def decodeEsc (next : List Char → Option (List Char × List Char)) :
    List Char → Option (List Char × List Char)
  | [] => none
  | e :: rest2 =>
    if e = '"' then (next rest2).map (fun p => ('"' :: p.1, p.2))
    else if e = '\\' then (next rest2).map (fun p => ('\\' :: p.1, p.2))
    else if e = '/' then (next rest2).map (fun p => ('/' :: p.1, p.2))
    else if e = 'b' then
      (next rest2).map (fun p => (Char.ofNat 8 :: p.1, p.2))
    else if e = 'f' then
      (next rest2).map (fun p => (Char.ofNat 12 :: p.1, p.2))
    else if e = 'n' then (next rest2).map (fun p => ('\n' :: p.1, p.2))
    else if e = 'r' then
      (next rest2).map (fun p => (Char.ofNat 13 :: p.1, p.2))
    else if e = 't' then (next rest2).map (fun p => ('\t' :: p.1, p.2))
    else if e = 'u' then decodeU next rest2
    else none

/-- Parse the body of a JSON string up to its closing quote, decoding
escapes (including surrogate pairs). Returns the decoded characters and the
input after the closing quote. The fuel only bounds recursion; callers pass
`length + 1`, enough since every step consumes input. -/
def decodeJStringAux : Nat → List Char → Option (List Char × List Char)
  | 0, _ => none
  | _ + 1, [] => none
  | fuel + 1, c :: rest =>
    if c = '"' then some ([], rest)
    else if c = '\\' then decodeEsc (decodeJStringAux fuel) rest
    else
      (decodeJStringAux fuel rest).map (fun p => (c :: p.1, p.2))

/-- Parse a JSON string body with sufficient fuel for the whole input. -/
def decodeJString (l : List Char) : Option (List Char × List Char) :=
  decodeJStringAux (l.length + 1) l

/-- Consume an expected literal: `some` of the remainder when `pat` is a
prefix of the input, else `none`. -/
def dropLit : List Char → List Char → Option (List Char)
  | [], l => some l
  | _ :: _, [] => none
  | p :: ps, c :: cs => if c = p then dropLit ps cs else none

/-- Parse one serialized message object of the shape `json_dumps_message`
produces. -/
def parseMessage (l : List Char) : Option (Message × List Char) :=
  match dropLit ("\x7b\"role\": \"".data) l with
  | none => none
  | some r1 =>
    match decodeJString r1 with
    | none => none
    | some (role, r2) =>
      match dropLit (", \"content\": \"".data) r2 with
      | none => none
      | some r3 =>
        match decodeJString r3 with
        | none => none
        | some (content, r4) =>
          match r4 with
          | c :: r5 =>
            if c = Char.ofNat 0x7d then
              some (⟨String.mk role, String.mk content⟩, r5)
            else none
          | [] => none

/-- Parse the `, <message>` continuation of a message array, ending at `]`. -/
def parseMsgsAux : Nat → List Char → Option (List Message × List Char)
  | 0, _ => none
  | fuel + 1, l =>
    match l with
    | [] => none
    | c :: r =>
      if c = ']' then some ([], r)
      else if c = ',' then
        match r with
        | [] => none
        | sp :: r2 =>
          if sp = ' ' then
            match parseMessage r2 with
            | some (m, r3) =>
              match parseMsgsAux fuel r3 with
              | some (ms, r4) => some (m :: ms, r4)
              | none => none
            | none => none
          else none
      else none

/-- Parse a `[...]` array of messages: a first message then `, `-separated
continuations, or an immediately empty array. -/
def parseMsgList (l : List Char) : Option (List Message × List Char) :=
  match l with
  | [] => none
  | b :: r =>
    if b = '[' then
      match parseMessage r with
      | some (m, r2) =>
        match parseMsgsAux (r.length + 1) r2 with
        | some (ms, r3) => some (m :: ms, r3)
        | none => none
      | none =>
        match r with
        | c :: r1 => if c = ']' then some ([], r1) else none
        | [] => none
    else none

/-- Parse one JSONL line back into a record: exactly the grammar the
serializer emits. -/
def parseRecordLine (s : String) : Option ConversationRecord :=
  match dropLit ("\x7b\"messages\": ".data) s.data with
  | none => none
  | some r1 =>
    match parseMsgList r1 with
    | none => none
    | some (msgs, r2) =>
      match r2 with
      | [c] => if c = Char.ofNat 0x7d then some ⟨msgs⟩ else none
      | _ => none

theorem dropLit_append (pat : List Char) :
    ∀ rest : List Char, dropLit pat (pat ++ rest) = some rest := by
  induction pat with
  | nil => intro rest; rfl
  | cons p ps ih => intro rest; simp [dropLit, ih]

theorem hexDigitVal_hexDigitChar : ∀ n < 16,
    hexDigitVal (hexDigitChar n) = some n := by decide

theorem hex4Val_hex4 (n : Nat) (h : n < 65536) :
    hex4Val (hexDigitChar (n / 4096 % 16)) (hexDigitChar (n / 256 % 16))
      (hexDigitChar (n / 16 % 16)) (hexDigitChar (n % 16)) = some n := by
  unfold hex4Val
  rw [hexDigitVal_hexDigitChar (n / 4096 % 16) (by omega),
    hexDigitVal_hexDigitChar (n / 256 % 16) (by omega),
    hexDigitVal_hexDigitChar (n / 16 % 16) (by omega),
    hexDigitVal_hexDigitChar (n % 16) (by omega)]
  simp only [Option.some.injEq]
  omega

theorem char_valid_ranges (c : Char) :
    c.toNat < 0xd800 ∨ (0xe000 ≤ c.toNat ∧ c.toNat < 0x110000) := by
  rcases c.valid with h | ⟨h1, h2⟩
  · exact Or.inl h
  · exact Or.inr ⟨h1, h2⟩

theorem decodeU_cons_some
    (next : List Char → Option (List Char × List Char))
    (d1 d2 d3 d4 : Char) (rest3 : List Char) (n : Nat)
    (hv : hex4Val d1 d2 d3 d4 = some n) :
    decodeU next (d1 :: d2 :: d3 :: d4 :: rest3) =
      if 0xd800 ≤ n ∧ n < 0xdc00 then decodeLowSurrogate next n rest3
      else if 0xdc00 ≤ n ∧ n < 0xe000 then none
      else (next rest3).map (fun p => (Char.ofNat n :: p.1, p.2)) := by
  have hstep : decodeU next (d1 :: d2 :: d3 :: d4 :: rest3) =
      match hex4Val d1 d2 d3 d4 with
      | none => none
      | some n =>
        if 0xd800 ≤ n ∧ n < 0xdc00 then decodeLowSurrogate next n rest3
        else if 0xdc00 ≤ n ∧ n < 0xe000 then none
        else (next rest3).map (fun p => (Char.ofNat n :: p.1, p.2)) := rfl
  rw [hstep, hv]

theorem decodeLowSurrogate_cons_some
    (next : List Char → Option (List Char × List Char)) (n : Nat)
    (g1 g2 g3 g4 : Char) (rest4 : List Char) (m2 : Nat)
    (hv : hex4Val g1 g2 g3 g4 = some m2) :
    decodeLowSurrogate next n ('\\' :: 'u' :: g1 :: g2 :: g3 :: g4 :: rest4) =
      if 0xdc00 ≤ m2 ∧ m2 < 0xe000 then
        (next rest4).map
          (fun p =>
            (Char.ofNat (0x10000 + (n - 0xd800) * 0x400 + (m2 - 0xdc00)) ::
              p.1, p.2))
      else none := by
  have hstep :
      decodeLowSurrogate next n
          ('\\' :: 'u' :: g1 :: g2 :: g3 :: g4 :: rest4) =
        match hex4Val g1 g2 g3 g4 with
        | some m2 =>
          if 0xdc00 ≤ m2 ∧ m2 < 0xe000 then
            (next rest4).map
              (fun p =>
                (Char.ofNat
                  (0x10000 + (n - 0xd800) * 0x400 + (m2 - 0xdc00)) ::
                  p.1, p.2))
          else none
        | none => none := rfl
  rw [hstep, hv]

theorem decodeU_bmp (next : List Char → Option (List Char × List Char))
    (n : Nat) (hn : n < 0x10000)
    (hlow : ¬(0xd800 ≤ n ∧ n < 0xdc00)) (hhigh : ¬(0xdc00 ≤ n ∧ n < 0xe000))
    (T : List Char) :
    decodeU next (hex4 n ++ T) =
      (next T).map (fun p => (Char.ofNat n :: p.1, p.2)) := by
  simp only [hex4, List.cons_append, List.nil_append]
  rw [decodeU_cons_some next _ _ _ _ _ n (hex4Val_hex4 n hn)]
  rw [if_neg hlow, if_neg hhigh]

theorem decodeU_pair (next : List Char → Option (List Char × List Char))
    (n : Nat) (hlo : 0x10000 ≤ n) (hhi : n < 0x110000) (T : List Char) :
    decodeU next (hex4 (0xd800 + (n - 0x10000) / 0x400) ++
        ('\\' :: 'u' :: (hex4 (0xdc00 + (n - 0x10000) % 0x400) ++ T))) =
      (next T).map (fun p => (Char.ofNat n :: p.1, p.2)) := by
  have hdiv : (n - 0x10000) / 0x400 < 0x400 := by omega
  simp only [hex4, List.cons_append, List.nil_append]
  rw [decodeU_cons_some next _ _ _ _ _ (0xd800 + (n - 0x10000) / 0x400)
    (hex4Val_hex4 (0xd800 + (n - 0x10000) / 0x400) (by omega))]
  rw [if_pos (by omega : 0xd800 ≤ 0xd800 + (n - 0x10000) / 0x400 ∧
    0xd800 + (n - 0x10000) / 0x400 < 0xdc00)]
  rw [decodeLowSurrogate_cons_some next _ _ _ _ _ _
    (0xdc00 + (n - 0x10000) % 0x400)
    (hex4Val_hex4 (0xdc00 + (n - 0x10000) % 0x400) (by omega))]
  rw [if_pos (by omega : 0xdc00 ≤ 0xdc00 + (n - 0x10000) % 0x400 ∧
    0xdc00 + (n - 0x10000) % 0x400 < 0xe000)]
  have harith : 0x10000 +
      (0xd800 + (n - 0x10000) / 0x400 - 0xd800) * 0x400 +
      (0xdc00 + (n - 0x10000) % 0x400 - 0xdc00) = n := by omega
  rw [harith]

theorem decode_backslash_u (f : Nat) (X : List Char) :
    decodeJStringAux (f + 1) ('\\' :: 'u' :: X) =
      decodeU (decodeJStringAux f) X := rfl

theorem decode_step (c : Char) (f : Nat) (T : List Char) :
    decodeJStringAux (f + 1) (escapeChar c ++ T) =
      (decodeJStringAux f T).map (fun p => (c :: p.1, p.2)) := by
  unfold escapeChar
  split_ifs with h1 h2 h3 h4 h5 h6 h7 h8 h9
  · subst h1; rfl
  · subst h2; rfl
  · subst h3; rfl
  · subst h4; rfl
  · subst h5; rfl
  · subst h6; rfl
  · subst h7; rfl
  · show decodeJStringAux (f + 1) (c :: T) = _
    simp only [decodeJStringAux]
    rw [if_neg h1, if_neg h2]
  · have hlow : ¬(0xd800 ≤ c.toNat ∧ c.toNat < 0xdc00) := by
      rcases char_valid_ranges c with h | ⟨ha, hb⟩ <;> omega
    have hhigh : ¬(0xdc00 ≤ c.toNat ∧ c.toNat < 0xe000) := by
      rcases char_valid_ranges c with h | ⟨ha, hb⟩ <;> omega
    rw [show ('\\' :: 'u' :: hex4 c.toNat) ++ T =
      '\\' :: 'u' :: (hex4 c.toNat ++ T) from by simp]
    rw [decode_backslash_u, decodeU_bmp (decodeJStringAux f) c.toNat h9 hlow
      hhigh T, Char.ofNat_toNat]
  · have hlo : 0x10000 ≤ c.toNat := by omega
    have hhi : c.toNat < 0x110000 := by
      rcases char_valid_ranges c with h | ⟨ha, hb⟩ <;> omega
    rw [show ('\\' :: 'u' :: hex4 (0xd800 + (c.toNat - 0x10000) / 0x400)) ++
        ('\\' :: 'u' :: hex4 (0xdc00 + (c.toNat - 0x10000) % 0x400)) ++ T =
      '\\' :: 'u' :: (hex4 (0xd800 + (c.toNat - 0x10000) / 0x400) ++
        ('\\' :: 'u' :: (hex4 (0xdc00 + (c.toNat - 0x10000) % 0x400) ++ T)))
      from by simp]
    rw [decode_backslash_u, decodeU_pair (decodeJStringAux f) c.toNat hlo hhi
      T, Char.ofNat_toNat]

theorem escapeChar_length_pos (c : Char) : 1 ≤ (escapeChar c).length := by
  unfold escapeChar
  split_ifs <;> simp [hex4]

theorem length_le_flatten_escape (cs : List Char) :
    cs.length ≤ ((cs.map escapeChar).flatten).length := by
  induction cs with
  | nil => simp
  | cons c cs ih =>
      simp only [List.map_cons, List.flatten_cons, List.length_append,
        List.length_cons]
      have := escapeChar_length_pos c
      omega

theorem decode_flatten_escape (cs : List Char) :
    ∀ fuel : Nat, cs.length < fuel → ∀ rest : List Char,
      decodeJStringAux fuel ((cs.map escapeChar).flatten ++ '"' :: rest) =
        some (cs, rest) := by
  induction cs with
  | nil =>
      intro fuel hf rest
      cases fuel with
      | zero => omega
      | succ f => rfl
  | cons c cs ih =>
      intro fuel hf rest
      cases fuel with
      | zero => omega
      | succ f =>
          simp only [List.map_cons, List.flatten_cons, List.append_assoc]
          rw [decode_step c f ((cs.map escapeChar).flatten ++ '"' :: rest)]
          rw [ih f (by simpa using hf) rest]
          rfl

theorem decodeJString_enc (s : String) (rest : List Char) :
    decodeJString (encStr s ++ '"' :: rest) = some (s.data, rest) := by
  unfold decodeJString encStr
  refine decode_flatten_escape s.data _ ?_ rest
  simp only [List.length_append, List.length_cons]
  have := length_le_flatten_escape s.data
  omega

theorem parseMessage_enc (m : Message) (rest : List Char) :
    parseMessage (json_dumps_message m ++ rest) = some (m, rest) := by
  have hrole : ("\x7b\"role\": \"".data) =
      ("\x7b\"role\": ".data) ++ ['"'] := by decide
  have hcontent : (", \"content\": \"".data) =
      (", \"content\": ".data) ++ ['"'] := by decide
  have hshape : json_dumps_message m ++ rest =
      ("\x7b\"role\": \"".data) ++ (encStr m.role ++ '"' ::
        ((", \"content\": \"".data) ++ (encStr m.content ++ '"' ::
          (Char.ofNat 0x7d :: rest)))) := by
    rw [hrole, hcontent]
    simp [json_dumps_message, encodeJString, List.append_assoc]
  rw [hshape]
  simp only [parseMessage, dropLit_append, decodeJString_enc]
  simp

/-- The `, <message>` continuation chunks of a serialized message array. -/
def jsonMsgTail (ms : List Message) : List Char :=
  (ms.map (fun m2 => ", ".data ++ json_dumps_message m2)).flatten

theorem jsonItems_cons (m : Message) (ms : List Message) :
    jsonItems ((m :: ms).map json_dumps_message) =
      json_dumps_message m ++ jsonMsgTail ms := by
  simp [jsonItems, jsonMsgTail, Function.comp_def]

theorem length_le_jsonMsgTail (ms : List Message) :
    ms.length ≤ (jsonMsgTail ms).length := by
  induction ms with
  | nil => simp [jsonMsgTail]
  | cons m ms ih =>
      simp only [jsonMsgTail, List.map_cons, List.flatten_cons,
        List.length_append, List.length_cons] at ih ⊢
      have h2 : (", ".data).length = 2 := by decide
      omega

theorem parseMsgsAux_enc (ms : List Message) :
    ∀ fuel : Nat, ms.length < fuel → ∀ rest : List Char,
      parseMsgsAux fuel (jsonMsgTail ms ++ ']' :: rest) = some (ms, rest) := by
  induction ms with
  | nil =>
      intro fuel hf rest
      cases fuel with
      | zero => omega
      | succ f => rfl
  | cons m ms ih =>
      intro fuel hf rest
      cases fuel with
      | zero => omega
      | succ f =>
          have hshape : jsonMsgTail (m :: ms) ++ ']' :: rest =
              ',' :: ' ' ::
                (json_dumps_message m ++ (jsonMsgTail ms ++ ']' :: rest)) := by
            simp [jsonMsgTail, List.append_assoc]
          rw [hshape]
          have hlen : ms.length < f := by
            simp only [List.length_cons] at hf
            omega
          simp only [parseMsgsAux, parseMessage_enc, ih f hlen rest]
          simp

theorem parseMsgList_enc (ms : List Message) (rest : List Char) :
    parseMsgList (json_dumps_msglist ms ++ rest) = some (ms, rest) := by
  cases ms with
  | nil => rfl
  | cons m ms =>
      have hshape : json_dumps_msglist (m :: ms) ++ rest =
          '[' :: (json_dumps_message m ++ (jsonMsgTail ms ++ ']' :: rest)) := by
        unfold json_dumps_msglist
        rw [jsonItems_cons]
        simp [List.append_assoc]
      rw [hshape]
      simp only [parseMsgList]
      rw [if_pos trivial]
      have hfuel : ms.length <
          (json_dumps_message m ++ (jsonMsgTail ms ++ ']' :: rest)).length +
            1 := by
        simp only [List.length_append, List.length_cons]
        have := length_le_jsonMsgTail ms
        omega
      simp only [parseMessage_enc m (jsonMsgTail ms ++ ']' :: rest),
        parseMsgsAux_enc ms _ hfuel rest]

theorem parseRecordLine_dumps (r : ConversationRecord) :
    parseRecordLine (String.mk (json_dumps_record r)) = some r := by
  have hshape : json_dumps_record r =
      ("\x7b\"messages\": ".data) ++
        (json_dumps_msglist r.messages ++ [Char.ofNat 0x7d]) := by
    unfold json_dumps_record
    simp [List.append_assoc]
  unfold parseRecordLine
  rw [show (String.mk (json_dumps_record r)).data = json_dumps_record r from
    rfl]
  rw [hshape]
  simp only [dropLit_append, parseMsgList_enc]
  simp

theorem hexDigitChar_ne_nl : ∀ k < 16, hexDigitChar k ≠ '\n' := by decide

theorem mem_hex4_ne_nl (n : Nat) (x : Char) (hx : x ∈ hex4 n) : x ≠ '\n' := by
  simp only [hex4, List.mem_cons, List.not_mem_nil, or_false] at hx
  rcases hx with rfl | rfl | rfl | rfl <;>
    exact hexDigitChar_ne_nl _ (by omega)

theorem mem_escapeChar_ne_nl (c x : Char) (hx : x ∈ escapeChar c) :
    x ≠ '\n' := by
  unfold escapeChar at hx
  split_ifs at hx with h1 h2 h3 h4 h5 h6 h7 h8 h9
  · simp at hx; rcases hx with rfl | rfl <;> decide
  · simp at hx; subst hx; decide
  · simp at hx; rcases hx with rfl | rfl <;> decide
  · simp at hx; rcases hx with rfl | rfl <;> decide
  · simp at hx; rcases hx with rfl | rfl <;> decide
  · simp at hx; rcases hx with rfl | rfl <;> decide
  · simp at hx; rcases hx with rfl | rfl <;> decide
  · simp at hx; subst hx; exact h5
  · simp only [List.mem_cons] at hx
    rcases hx with rfl | rfl | hx
    · decide
    · decide
    · exact mem_hex4_ne_nl _ _ hx
  · simp only [List.cons_append, List.mem_cons, List.mem_append] at hx
    rcases hx with rfl | rfl | hx
    · decide
    · decide
    · rcases hx with hx | rfl | rfl | hx
      · exact mem_hex4_ne_nl _ _ hx
      · decide
      · decide
      · exact mem_hex4_ne_nl _ _ hx

theorem nl_not_mem_encStr (s : String) : '\n' ∉ encStr s := by
  intro h
  unfold encStr at h
  rw [List.mem_flatten] at h
  obtain ⟨l, hl, hmem⟩ := h
  rw [List.mem_map] at hl
  obtain ⟨c, _, rfl⟩ := hl
  exact mem_escapeChar_ne_nl c _ hmem rfl

theorem nl_not_mem_encodeJString (s : String) : '\n' ∉ encodeJString s := by
  intro h
  unfold encodeJString at h
  rcases List.mem_cons.mp h with h | h
  · exact absurd h (by decide)
  · rcases List.mem_append.mp h with h | h
    · exact nl_not_mem_encStr s h
    · exact absurd h (by decide)

theorem nl_not_mem_dumps_message (m : Message) :
    '\n' ∉ json_dumps_message m := by
  intro h
  unfold json_dumps_message at h
  rcases List.mem_append.mp h with h | h
  · rcases List.mem_append.mp h with h | h
    · rcases List.mem_append.mp h with h | h
      · rcases List.mem_append.mp h with h | h
        · exact absurd h (by decide)
        · exact nl_not_mem_encodeJString m.role h
      · exact absurd h (by decide)
    · exact nl_not_mem_encodeJString m.content h
  · exact absurd h (by decide)

theorem nl_not_mem_jsonMsgTail (ms : List Message) :
    '\n' ∉ jsonMsgTail ms := by
  intro h
  unfold jsonMsgTail at h
  rw [List.mem_flatten] at h
  obtain ⟨l, hl, hmem⟩ := h
  rw [List.mem_map] at hl
  obtain ⟨m2, _, rfl⟩ := hl
  rcases List.mem_append.mp hmem with h | h
  · exact absurd h (by decide)
  · exact nl_not_mem_dumps_message m2 h

theorem nl_not_mem_jsonItems (msgs : List Message) :
    '\n' ∉ jsonItems (msgs.map json_dumps_message) := by
  cases msgs with
  | nil => simp [jsonItems]
  | cons m ms =>
      rw [jsonItems_cons]
      intro h
      rcases List.mem_append.mp h with h | h
      · exact nl_not_mem_dumps_message m h
      · exact nl_not_mem_jsonMsgTail ms h

theorem nl_not_mem_dumps_record (r : ConversationRecord) :
    '\n' ∉ json_dumps_record r := by
  intro h
  unfold json_dumps_record json_dumps_msglist at h
  rcases List.mem_append.mp h with h | h
  · rcases List.mem_append.mp h with h | h
    · exact absurd h (by decide)
    · rcases List.mem_cons.mp h with h | h
      · exact absurd h (by decide)
      · rcases List.mem_append.mp h with h | h
        · exact nl_not_mem_jsonItems r.messages h
        · exact absurd h (by decide)
  · exact absurd h (by decide)

theorem splitLinesChars_line (line : List Char) (hline : '\n' ∉ line)
    (rest : List Char) :
    splitLinesChars (line ++ '\n' :: rest) = line :: splitLinesChars rest := by
  induction line with
  | nil => simp [splitLinesChars]
  | cons c cl ih =>
      have hc : c ≠ '\n' := fun hq => hline (hq ▸ List.mem_cons_self _ _)
      have hcl : '\n' ∉ cl := fun hq => hline (List.mem_cons_of_mem _ hq)
      simp only [List.cons_append, splitLinesChars]
      rw [if_neg hc]
      rw [show cl.append ('\n' :: rest) = cl ++ '\n' :: rest from rfl,
        ih hcl]

/-- C8: serializing a dataset to JSONL, splitting the output on newlines and
parsing each line back reproduces the dataset exactly — one record per line,
in order, field for field. -/
theorem serialize_parse_roundtrip (D : List ConversationRecord) :
    (splitLines (write_dataset_to_jsonl D)).map parseRecordLine =
        D.map some ∧
      (splitLines (write_dataset_to_jsonl D)).length = D.length := by
  have hmain :
      splitLinesChars
          ((D.map (fun ex => json_dumps_record ex ++ ['\n'])).flatten) =
        D.map json_dumps_record := by
    induction D with
    | nil => rfl
    | cons r D ih =>
        simp only [List.map_cons, List.flatten_cons]
        rw [show (json_dumps_record r ++ ['\n']) ++
            (D.map (fun ex => json_dumps_record ex ++ ['\n'])).flatten =
          json_dumps_record r ++ '\n' ::
            (D.map (fun ex => json_dumps_record ex ++ ['\n'])).flatten from by
          simp]
        rw [splitLinesChars_line _ (nl_not_mem_dumps_record r) _, ih]
  unfold splitLines write_dataset_to_jsonl
  rw [show (String.mk
      ((D.map (fun ex => json_dumps_record ex ++ ['\n'])).flatten)).data =
    (D.map (fun ex => json_dumps_record ex ++ ['\n'])).flatten from rfl]
  rw [hmain]
  constructor
  · simp [List.map_map, Function.comp_def, parseRecordLine_dumps]
  · simp
